import Mathlib

/-!
Shallow embedding of `src/app.py` (a Streamlit text-to-video pipeline) and
verification of a list of claims about it.  Python strings are modelled as
`List Char`; the audio files on disk are modelled by a duration map
`String → ℚ`; external effects (TTS synthesis, mp3 encoding) enter as oracle
parameters recording what the external tool produced.
-/

namespace App

/-- The ASCII whitespace characters recognised by Python `str.strip()` /
`str.split()` on the inputs this app handles. -/
def isPyWs (c : Char) : Bool :=
  c == ' ' || c == '\t' || c == '\n' || c == '\r' ||
    c == Char.ofNat 11 || c == Char.ofNat 12

/-- Python `s.strip()`: drop whitespace from both ends. -/
def pyStrip (l : List Char) : List Char :=
  ((l.dropWhile isPyWs).reverse.dropWhile isPyWs).reverse

/-- Python `text.split(sep)` for the two-character separator used in
`split_script` (a blank line, two consecutive newlines), consuming
occurrences greedily from the left. -/
def splitNN : List Char → List (List Char)
  | [] => [[]]
  | '\n' :: '\n' :: rest => [] :: splitNN rest
  | c :: rest =>
    match splitNN rest with
    | [] => [[c]]
    | h :: t => (c :: h) :: t

/-- Python `text.split(".")`. -/
def splitDot : List Char → List (List Char)
  | [] => [[]]
  | '.' :: rest => [] :: splitDot rest
  | c :: rest =>
    match splitDot rest with
    | [] => [[c]]
    | h :: t => (c :: h) :: t

/-- Python `text.replace("?", ".").replace("!", ".")`, characterwise (both
pattern and replacement are single characters). -/
def punctToDot (c : Char) : Char :=
  if c == '?' then '.' else if c == '!' then '.' else c

/-- Python `sep.join(parts)`. -/
def joinSep (sep : List Char) : List (List Char) → List Char
  | [] => []
  | [x] => x
  | x :: xs => x ++ sep ++ joinSep sep xs

/-- Helper for `countWords`: scans the characters tracking whether the
previous character was inside a word. -/
def countWordsAux : List Char → Bool → Nat
  | [], _ => 0
  | c :: rest, inWord =>
    if isPyWs c then countWordsAux rest false
    else (if inWord then 0 else 1) + countWordsAux rest true

/-- Python `len(s.split())`: the number of maximal whitespace-free runs. -/
def countWords (l : List Char) : Nat := countWordsAux l false

/-- The sentence-grouping loop of `split_script`'s fallback branch in
`src/app.py`: `buf` accumulates stripped sentence parts, a group
`". ".join(buf) + "."` is flushed once the joined word count reaches 18, and
a trailing nonempty `buf` is flushed after the loop. -/
def sentLoop (buf : List (List Char)) : List (List Char) → List (List Char)
  | [] => if buf.isEmpty then [] else [joinSep ['.', ' '] buf ++ ['.']]
  | part :: parts =>
    let t := pyStrip part
    if t.isEmpty then sentLoop buf parts
    else
      let buf' := buf ++ [t]
      if 18 ≤ countWords (joinSep [' '] buf') then
        (joinSep ['.', ' '] buf' ++ ['.']) :: sentLoop [] parts
      else sentLoop buf' parts

/-- `split_script` from `src/app.py`: split on blank lines, keep the blocks
that are nonempty after stripping; if no block survives, run the rough
sentence-grouping fallback. -/
def split_script (text : List Char) : List (List Char) :=
  let blocks := ((splitNN text).map pyStrip).filter (fun b => !b.isEmpty)
  if blocks.isEmpty then sentLoop [] (splitDot (text.map punctToDot))
  else blocks

/-- The `Scene` dataclass of `src/app.py`. -/
structure Scene where
  text : List Char
  bg_image_path : Option String
  audio_path : String
  duration : ℚ
  deriving DecidableEq

/-- A model of the audio files on disk: each path maps to the duration in
seconds that `AudioSegment.from_file(path).duration_seconds` would report. -/
def AudioFS : Type := String → ℚ

/-- Writing a file of duration `d` at path `p`. -/
def fsWrite (fs : AudioFS) (p : String) (d : ℚ) : AudioFS :=
  fun q => if q = p then d else fs q

/-- `tts_to_mp3` from `src/app.py`.  The external gTTS service writes an mp3
of some duration `d` (an oracle) at the fresh path `p`; the function then
measures that file and returns the path with the measured duration. -/
def tts_to_mp3 (fs : AudioFS) (p : String) (d : ℚ) : AudioFS × String × ℚ :=
  let fs' := fsWrite fs p d
  (fs', p, fs' p)

/-- `change_speed` from `src/app.py`.  When `|speed - 1| < 1e-3` it returns
the input path with its measured duration and writes nothing; otherwise the
resampled audio is exported to the fresh path `outPath` (the mp3 encoder
produces a file of duration `exportDur`, an oracle) and the exported file is
measured again. -/
def change_speed (fs : AudioFS) (outPath : String) (exportDur : ℚ)
    (input : String) (speed : ℚ) : AudioFS × String × ℚ :=
  if |speed - 1| < 1 / 1000 then (fs, input, fs input)
  else
    let fs' := fsWrite fs outPath exportDur
    (fs', outPath, fs' outPath)

/-- The external inputs consumed by one iteration of the render loop of
`src/app.py`: the text block, the fresh path and synthesized duration of the
gTTS output, the fresh path and encoded duration of the `change_speed`
export, and the path of the saved frame image. -/
structure SceneInput where
  block : List Char
  ttsPath : String
  ttsDur : ℚ
  speedPath : String
  exportDur : ℚ
  framePath : String
  deriving DecidableEq

/-- The scene-building render loop of `src/app.py` (the `for i, blk in
enumerate(blocks)` loop): per block, synthesize TTS audio, apply
`change_speed`, and record a `Scene` whose duration is the returned one. -/
def renderScenes (speed : ℚ) (fs : AudioFS) : List SceneInput → AudioFS × List Scene
  | [] => (fs, [])
  | si :: rest =>
    let r1 := tts_to_mp3 fs si.ttsPath si.ttsDur
    let r2 := change_speed r1.1 si.speedPath si.exportDur r1.2.1 speed
    let sc : Scene := ⟨si.block, some si.framePath, r2.2.1, r2.2.2⟩
    let r3 := renderScenes speed r2.1 rest
    (r3.1, sc :: r3.2)

/-- All fresh temp-file paths a list of render-loop iterations writes to. -/
def renderPaths (sis : List SceneInput) : List String :=
  sis.flatMap (fun si => [si.ttsPath, si.speedPath])

/-- The `THEMES` table of `src/app.py` together with the
`THEMES.get(theme, THEMES["Donker"])` lookup. -/
def themeColors (theme : String) : (ℕ × ℕ × ℕ) × (ℕ × ℕ × ℕ) :=
  if theme = "Donker" then ((15, 23, 42), (30, 41, 59))
  else if theme = "Licht" then ((245, 246, 248), (225, 229, 235))
  else if theme = "Aardetint" then ((39, 57, 47), (98, 125, 103))
  else if theme = "Paars" then ((45, 23, 66), (109, 74, 147))
  else if theme = "Sunset" then ((255, 94, 98), (255, 195, 113))
  else ((15, 23, 42), (30, 41, 59))

/-- One colour channel of the gradient: `int(a*(1-t) + b*t)` stored into a
`uint8` numpy array (the value is nonnegative, so `int` truncation is the
floor, and storage reduces mod 256). -/
def gradChannel (a b : ℕ) (t : ℚ) : ℕ :=
  (Int.floor ((a : ℚ) * (1 - t) + (b : ℚ) * t)).toNat % 256

/-- One pixel of the gradient at interpolation parameter `t`. -/
def gradPixel (c1 c2 : ℕ × ℕ × ℕ) (t : ℚ) : ℕ × ℕ × ℕ :=
  (gradChannel c1.1 c2.1 t, gradChannel c1.2.1 c2.2.1 t, gradChannel c1.2.2 c2.2.2 t)

/-- `make_gradient_bg` from `src/app.py`: the pixel rows of the returned
image, row `y` filled with the colour at `t = y / max(1, h-1)`. -/
def make_gradient_bg (w h : ℕ) (theme : String) : List (List (ℕ × ℕ × ℕ)) :=
  let c := themeColors theme
  (List.range h).map (fun (y : ℕ) =>
    List.replicate w (gradPixel c.1 c.2 ((y : ℚ) / ((max 1 (h - 1) : ℕ) : ℚ))))

/-- The background selected by `build_scene_image`: either the user image
opened, converted to RGB and resized to `size`, or the theme gradient. -/
inductive BaseImage where
  | fromFile : String → ℕ × ℕ → BaseImage
  | gradient : List (List (ℕ × ℕ × ℕ)) → BaseImage
  deriving DecidableEq

/-- The result of `draw_text_block`: the caption `text` drawn (wrapped and
centred, with a translucent box) on top of `base`. -/
structure ComposedImage where
  base : BaseImage
  caption : List Char
  deriving DecidableEq

/-- Python truthiness of an `Optional[str]`: `None` and `""` are falsy. -/
def pyTruthy (o : Option String) : Bool :=
  match o with
  | none => false
  | some s => !s.isEmpty

/-- `build_scene_image` from `src/app.py`.  `openOk p` records whether
`Image.open(p).convert("RGB").resize(size)` succeeds (`false` means the
`except Exception` branch is taken); the caption is then drawn on the chosen
base. -/
def build_scene_image (openOk : String → Bool) (size : ℕ × ℕ) (theme : String)
    (text : List Char) (bg_image_path : Option String) : ComposedImage :=
  let base : BaseImage :=
    if pyTruthy bg_image_path then
      match bg_image_path with
      | some p => if openOk p then .fromFile p size else .gradient (make_gradient_bg size.1 size.2 theme)
      | none => .gradient (make_gradient_bg size.1 size.2 theme)
    else .gradient (make_gradient_bg size.1 size.2 theme)
  ⟨base, text⟩

/-- One MoviePy clip as assembled by `create_video`: the frame image with the
scene audio for the scene duration, optional fade-in/fade-out lengths, and
whether the logo overlay was composited on top. -/
structure Clip where
  framePath : Option String
  duration : ℚ
  audioPath : String
  fadeIn : Option ℚ
  fadeOut : Option ℚ
  logo : Bool
  deriving DecidableEq

/-- The clip built for scene `sc` at index `i` of `n` scenes in
`create_video` of `src/app.py`: `crossfadein(0.4)` for every clip but the
first, `crossfadeout(0.4)` for every clip but the last. -/
def buildClip (n : ℕ) (logoOv : Bool) (i : ℕ) (sc : Scene) : Clip :=
  { framePath := sc.bg_image_path
    duration := sc.duration
    audioPath := sc.audio_path
    fadeIn := if 0 < i then some (2 / 5) else none
    fadeOut := if i < n - 1 then some (2 / 5) else none
    logo := logoOv }

/-- `create_video` from `src/app.py`, up to the external encoder: the ordered
list of clips handed to `concatenate_videoclips`. -/
def create_video (scenes : List Scene) (logoOv : Bool) : List Clip :=
  scenes.enum.map (fun p => buildClip scenes.length logoOv p.1 p.2)

/-- Python `round()` on an exact value: round half to even. -/
def pyRound (x : ℚ) : ℤ :=
  let fl := Int.floor x
  let f := x - (fl : ℚ)
  if f < 1 / 2 then fl
  else if 1 / 2 < f then fl + 1
  else if fl % 2 = 0 then fl else fl + 1

/-- The decimal digits of a natural number. -/
def natChars (n : ℕ) : List Char := (Nat.repr n).data

/-- Zero-padding to a minimum width, as in Python `f-string` `0Nd` formats. -/
def zfill (w : ℕ) (l : List Char) : List Char :=
  List.replicate (w - l.length) '0' ++ l

/-- Python `f"{n:0wd}"`: sign first, zero padding between sign and digits. -/
def pyPad (w : ℕ) (n : ℤ) : List Char :=
  if n < 0 then '-' :: zfill (w - 1) (natChars n.natAbs)
  else zfill w (natChars n.toNat)

/-- `srt_timestamp` from `src/app.py`.  Python `//` on integers is floor
division, hence `Int.fdiv`. -/
def srt_timestamp (seconds : ℚ) : List Char :=
  let ms0 := pyRound (seconds * 1000)
  let h := ms0.fdiv 3600000
  let ms1 := ms0 - h * 3600000
  let m := ms1.fdiv 60000
  let ms2 := ms1 - m * 60000
  let s := ms2.fdiv 1000
  let ms3 := ms2 - s * 1000
  pyPad 2 h ++ [':'] ++ pyPad 2 m ++ [':'] ++ pyPad 2 s ++ [','] ++ pyPad 3 ms3

/-- Python `text.replace("\n", " ")`, characterwise. -/
def nlToSpace (c : Char) : Char := if c == '\n' then ' ' else c

/-- One serialized SRT entry of `write_srt_for_scenes`: the running index,
the rendered start and end timestamps, and the cleaned caption text. -/
structure SrtEntry where
  idx : ℕ
  start : List Char
  stop : List Char
  text : List Char
  deriving DecidableEq

/-- The loop of `write_srt_for_scenes` in `src/app.py`, producing entries
while accumulating the elapsed time `t` and the index. -/
def srtLines (t : ℚ) (idx : ℕ) : List Scene → List SrtEntry
  | [] => []
  | sc :: rest =>
    ⟨idx, srt_timestamp t, srt_timestamp (t + sc.duration),
      (pyStrip sc.text).map nlToSpace⟩ :: srtLines (t + sc.duration) (idx + 1) rest

/-- `write_srt_for_scenes` from `src/app.py`, up to serialization: the list
of SRT entries written to the file, starting at `t = 0.0` and index 1. -/
def write_srt_for_scenes (scenes : List Scene) : List SrtEntry :=
  srtLines 0 1 scenes

/-- The interpolation parameter exactly as the claim about
`make_gradient_bg` words it: `t = y/(h-1)`, and `t = y` when `h = 1`. -/
def claimT (h y : ℕ) : ℚ :=
  if h = 1 then (y : ℚ) else (y : ℚ) / ((h : ℚ) - 1)

/-- One channel as the claim words it: `floor(a*(1-t) + b*t)`, no reduction
modulo 256. -/
def claimChannel (a b : ℕ) (t : ℚ) : ℕ :=
  (Int.floor ((a : ℚ) * (1 - t) + (b : ℚ) * t)).toNat

/-- The pixel colour the claim about `make_gradient_bg` describes,
componentwise over the two theme colours. -/
def claimPixel (c1 c2 : ℕ × ℕ × ℕ) (h y : ℕ) : ℕ × ℕ × ℕ :=
  (claimChannel c1.1 c2.1 (claimT h y),
    claimChannel c1.2.1 c2.2.1 (claimT h y),
    claimChannel c1.2.2 c2.2.2 (claimT h y))

/-- Theme name constant used in concrete instances. -/
def donker : String := "Donker"

/-- A concrete audio filesystem in which every file measures 0 seconds. -/
def zeroFS : AudioFS := fun _ => 0

/-- Concrete temp-file paths for concrete instances. -/
def pA : String := "tmp/tts_a.mp3"

def pB : String := "tmp/tts_speed_a.mp3"

def pF : String := "tmp/frame_a.png"

def pC : String := "tmp/bg_c.png"

/-- A concrete render-loop input. -/
def wSI : SceneInput := ⟨['h', 'i'], pA, 3, pB, 5, pF⟩

/-- The scene the render loop builds from `wSI` at speed 1 over `zeroFS`. -/
def wScene : Scene := ⟨['h', 'i'], some pF, pA, 3⟩

/-- Concrete scenes for concrete instances. -/
def scA : Scene := ⟨['o', 'n', 'e'], some pF, pA, 2⟩

def scB : Scene := ⟨['t', 'w', 'o'], none, pB, 3⟩

/-- A script with no blank line: two sentences, the first 18 words long. -/
def c1Text : String := "a a a a a a a a a a a a a a a a a a. Bye now."

/-!  Theorems.  -/

/-- C5: the time-stretch is the identity at unit speed: for every speed
strictly within 1e-3 of 1.0, `change_speed` returns the original file path
unchanged together with that original file's measured duration, and writes
no new file (the filesystem component is returned untouched). -/
theorem C5_change_speed_identity (fs : AudioFS) (outPath input : String)
    (exportDur speed : ℚ) (hs : |speed - 1| < 1 / 1000) :
    change_speed fs outPath exportDur input speed = (fs, input, fs input) := by
  unfold change_speed
  rw [if_pos hs]

/-- Witness for C5 at speed 1. -/
theorem C5_change_speed_identity_witness :
    change_speed zeroFS pB 5 pA 1 = (zeroFS, pA, zeroFS pA) :=
  C5_change_speed_identity zeroFS pB pA 5 1 (by norm_num)

/-- C8: `build_scene_image` composes the caption on top of the user image
resized to the output resolution when a (nonempty) background path opens
successfully, and on top of the theme gradient when no path is given or
opening raises; it is a total function, so frame composition never fails on
a bad background file. -/
theorem C8_build_scene_image_base (openOk : String → Bool) (size : ℕ × ℕ)
    (theme : String) (text : List Char) (bg : Option String) :
    (build_scene_image openOk size theme text bg).caption = text ∧
    (∀ p, bg = some p → p ≠ "" → openOk p = true →
      (build_scene_image openOk size theme text bg).base = BaseImage.fromFile p size) ∧
    (∀ p, bg = some p → openOk p = false →
      (build_scene_image openOk size theme text bg).base =
        BaseImage.gradient (make_gradient_bg size.1 size.2 theme)) ∧
    (bg = none →
      (build_scene_image openOk size theme text bg).base =
        BaseImage.gradient (make_gradient_bg size.1 size.2 theme)) := by
  refine ⟨rfl, ?_, ?_, ?_⟩
  · intro p hp hne hok
    subst hp
    have hem : p.isEmpty = false := by
      cases hpe : p.isEmpty
      · rfl
      · exact absurd ((String.isEmpty_iff p).mp hpe) hne
    simp [build_scene_image, pyTruthy, hem, hok]
  · intro p hp hok
    subst hp
    cases hem : p.isEmpty
    · simp [build_scene_image, pyTruthy, hem, hok]
    · simp [build_scene_image, pyTruthy, hem]
  · intro h
    subst h
    rfl

/-- Witness for C8 with an always-succeeding opener and a concrete path. -/
theorem C8_build_scene_image_base_witness :
    (build_scene_image (fun _ => true) (2, 2) donker ['h'] (some pC)).base =
      BaseImage.fromFile pC (2, 2) :=
  (C8_build_scene_image_base (fun _ => true) (2, 2) donker ['h'] (some pC)).2.1
    pC rfl (by decide) rfl

/-- C7: `create_video` hands the encoder one clip per scene, in scene order;
every clip except the first fades in over 0.4 s, every clip except the last
fades out over 0.4 s, so each adjacent pair blends opacity at its boundary
(the left clip fading out while the right one fades in). -/
theorem C7_create_video_fades (scenes : List Scene) (logoOv : Bool)
    (_hn : 2 ≤ scenes.length) (i : ℕ) (hi : i < scenes.length) :
    (create_video scenes logoOv).length = scenes.length ∧
    ∃ c : Clip, (create_video scenes logoOv)[i]? = some c ∧
      (∀ sc, scenes[i]? = some sc →
        c.framePath = sc.bg_image_path ∧ c.duration = sc.duration ∧
          c.audioPath = sc.audio_path) ∧
      (0 < i → c.fadeIn = some (2 / 5)) ∧
      (i = 0 → c.fadeIn = none) ∧
      (i < scenes.length - 1 → c.fadeOut = some (2 / 5)) ∧
      (i = scenes.length - 1 → c.fadeOut = none) ∧
      (i + 1 < scenes.length →
        c.fadeOut = some (2 / 5) ∧
          ∃ c2 : Clip, (create_video scenes logoOv)[i+1]? = some c2 ∧
            c2.fadeIn = some (2 / 5)) := by
  have hlen : (create_video scenes logoOv).length = scenes.length := by
    simp [create_video]
  refine ⟨hlen, buildClip scenes.length logoOv i scenes[i], ?_, ?_, ?_, ?_, ?_, ?_, ?_⟩
  · simp [create_video, List.getElem?_enum, List.getElem?_eq_getElem hi]
  · intro sc hsc
    rw [List.getElem?_eq_getElem hi] at hsc
    cases hsc
    exact ⟨rfl, rfl, rfl⟩
  · intro h0
    simp [buildClip, h0]
  · intro h0
    subst h0
    simp [buildClip]
  · intro hlt
    simp [buildClip, hlt]
  · intro hlast
    subst hlast
    simp [buildClip]
  · intro hsucc
    refine ⟨by simp [buildClip]; omega,
      buildClip scenes.length logoOv (i + 1) scenes[i + 1], ?_, ?_⟩
    · simp [create_video, List.getElem?_enum, List.getElem?_eq_getElem hsucc]
    · simp [buildClip]

/-- Witness for C7 on a concrete two-scene list at index 0. -/
theorem C7_create_video_fades_witness :
    (create_video [scA, scB] true).length = ([scA, scB] : List Scene).length :=
  (C7_create_video_fades [scA, scB] true (by decide) 0 (by decide)).1

/-- Every channel value of every theme colour is at most 255. -/
theorem themeColors_le (theme : String) :
    (themeColors theme).1.1 ≤ 255 ∧ (themeColors theme).1.2.1 ≤ 255 ∧
      (themeColors theme).1.2.2 ≤ 255 ∧ (themeColors theme).2.1 ≤ 255 ∧
      (themeColors theme).2.2.1 ≤ 255 ∧ (themeColors theme).2.2.2 ≤ 255 := by
  unfold themeColors
  split_ifs <;> exact ⟨by norm_num, by norm_num, by norm_num, by norm_num,
    by norm_num, by norm_num⟩

/-- A stored gradient channel with both endpoints at most 255 and an
interpolation parameter in `[0, 1]` needs no reduction mod 256 and matches
the claimed floor formula. -/
theorem gradChannel_eq_claim (a b : ℕ) (t : ℚ) (ha : a ≤ 255) (hb : b ≤ 255)
    (ht0 : 0 ≤ t) (ht1 : t ≤ 1) : gradChannel a b t = claimChannel a b t := by
  unfold gradChannel claimChannel
  have ha' : (a : ℚ) ≤ 255 := by exact_mod_cast ha
  have hb' : (b : ℚ) ≤ 255 := by exact_mod_cast hb
  have hnn : (0 : ℚ) ≤ (a : ℚ) * (1 - t) + (b : ℚ) * t :=
    add_nonneg (mul_nonneg (Nat.cast_nonneg a) (by linarith))
      (mul_nonneg (Nat.cast_nonneg b) ht0)
  have hle : (a : ℚ) * (1 - t) + (b : ℚ) * t ≤ 255 := by nlinarith
  have hfl0 : 0 ≤ Int.floor ((a : ℚ) * (1 - t) + (b : ℚ) * t) :=
    Int.floor_nonneg.mpr hnn
  have hfl : Int.floor ((a : ℚ) * (1 - t) + (b : ℚ) * t) ≤ 255 := by
    have := Int.floor_le_floor hle
    simpa using this
  omega

/-- The code's interpolation parameter `y / max(1, h-1)` agrees with the
claim's `t` for every row `y < h`. -/
theorem codeT_eq_claimT (h y : ℕ) (hy : y < h) :
    (y : ℚ) / ((max 1 (h - 1) : ℕ) : ℚ) = claimT h y := by
  unfold claimT
  by_cases h1 : h = 1
  · subst h1
    interval_cases y
    norm_num
  · have h2 : 2 ≤ h := by omega
    have hmax : max 1 (h - 1) = h - 1 := max_eq_right (by omega)
    rw [if_neg h1, hmax]
    have : ((h - 1 : ℕ) : ℚ) = (h : ℚ) - 1 := by
      push_cast [Nat.cast_sub (by omega : 1 ≤ h)]
      ring
    rw [this]

/-- The claim's `t` lies in `[0, 1]` for every row `y < h`. -/
theorem claimT_mem (h y : ℕ) (hy : y < h) : 0 ≤ claimT h y ∧ claimT h y ≤ 1 := by
  unfold claimT
  by_cases h1 : h = 1
  · subst h1
    interval_cases y
    norm_num
  · have h2 : 2 ≤ h := by omega
    rw [if_neg h1]
    have hden : (0 : ℚ) < (h : ℚ) - 1 := by
      have : (2 : ℚ) ≤ (h : ℚ) := by exact_mod_cast h2
      linarith
    constructor
    · positivity
    · rw [div_le_one hden]
      have : (y : ℚ) ≤ (h : ℚ) - 1 := by
        have : y ≤ h - 1 := by omega
        have hc : (y : ℚ) ≤ ((h - 1 : ℕ) : ℚ) := by exact_mod_cast this
        have : ((h - 1 : ℕ) : ℚ) = (h : ℚ) - 1 := by
          push_cast [Nat.cast_sub (by omega : 1 ≤ h)]
          ring
        linarith
      linarith

/-- C6, amended: for `h ≥ 1`, `make_gradient_bg` is `h` rows of `w` pixels,
row `y` uniformly `floor(c1*(1-t) + c2*t)` componentwise with `t = y/(h-1)`
(`t = y` when `h = 1`); the top row equals `c1`, and whenever `h ≥ 2` the
bottom row equals `c2`. -/
theorem C6_make_gradient_bg (w h : ℕ) (theme : String) (hge : 1 ≤ h) :
    (make_gradient_bg w h theme).length = h ∧
    (∀ y, y < h →
      (make_gradient_bg w h theme)[y]? =
        some (List.replicate w
          (claimPixel (themeColors theme).1 (themeColors theme).2 h y))) ∧
    (make_gradient_bg w h theme)[0]? =
      some (List.replicate w (themeColors theme).1) ∧
    (2 ≤ h →
      (make_gradient_bg w h theme)[h-1]? =
        some (List.replicate w (themeColors theme).2)) := by
  obtain ⟨b1, b2, b3, b4, b5, b6⟩ := themeColors_le theme
  have hrow : ∀ y, y < h →
      (make_gradient_bg w h theme)[y]? =
        some (List.replicate w
          (claimPixel (themeColors theme).1 (themeColors theme).2 h y)) := by
    intro y hy
    obtain ⟨ht0, ht1⟩ := claimT_mem h y hy
    have hpix :
        gradPixel (themeColors theme).1 (themeColors theme).2
            ((y : ℚ) / ((max 1 (h - 1) : ℕ) : ℚ)) =
          claimPixel (themeColors theme).1 (themeColors theme).2 h y := by
      unfold gradPixel claimPixel
      rw [codeT_eq_claimT h y hy]
      rw [gradChannel_eq_claim _ _ _ b1 b4 ht0 ht1,
        gradChannel_eq_claim _ _ _ b2 b5 ht0 ht1,
        gradChannel_eq_claim _ _ _ b3 b6 ht0 ht1]
    simp only [make_gradient_bg, List.getElem?_map, List.getElem?_range hy,
      Option.map_some']
    rw [hpix]
  refine ⟨by simp [make_gradient_bg], hrow, ?_, ?_⟩
  · rw [hrow 0 (by omega)]
    have ht : claimT h 0 = 0 := by
      unfold claimT
      split_ifs <;> simp
    have hch : ∀ a b : ℕ, claimChannel a b (claimT h 0) = a := by
      intro a b
      rw [ht]
      unfold claimChannel
      norm_num
    simp only [claimPixel, hch]
  · intro h2
    rw [hrow (h - 1) (by omega)]
    have ht : claimT h (h - 1) = 1 := by
      unfold claimT
      rw [if_neg (by omega : ¬ h = 1)]
      have hc : ((h - 1 : ℕ) : ℚ) = (h : ℚ) - 1 := by
        push_cast [Nat.cast_sub (by omega : 1 ≤ h)]
        ring
      rw [hc]
      have : (h : ℚ) - 1 ≠ 0 := by
        have : (2 : ℚ) ≤ (h : ℚ) := by exact_mod_cast h2
        intro hcontra
        linarith
      field_simp
    have hch : ∀ a b : ℕ, claimChannel a b (claimT h (h - 1)) = b := by
      intro a b
      rw [ht]
      unfold claimChannel
      norm_num
    simp only [claimPixel, hch]

/-- C6 counterexample to the unamended claim: at size 1x1 with the Donker
theme the single (hence bottom) row holds `c1`, not `c2`. -/
theorem C6_make_gradient_bg_counterexample :
    ¬ ((make_gradient_bg 1 1 donker).getLastD [] =
        List.replicate 1 (themeColors donker).2) := by
  have h1 : make_gradient_bg 1 1 donker = [[(15, 23, 42)]] := by
    have hT : themeColors donker = ((15, 23, 42), (30, 41, 59)) := rfl
    simp only [make_gradient_bg, hT]
    norm_num [List.range_succ, gradPixel, gradChannel]
    decide
  rw [h1]
  decide

/-- Witness for C6 at size 2x3 with the Donker theme: the bottom row is the
second theme colour. -/
theorem C6_make_gradient_bg_witness :
    (make_gradient_bg 2 3 donker)[2]? =
      some (List.replicate 2 (themeColors donker).2) :=
  (C6_make_gradient_bg 2 3 donker (by norm_num)).2.2.2 (by norm_num)

/-- `pyRound` of a nonnegative value is nonnegative. -/
theorem pyRound_nonneg {x : ℚ} (hx : 0 ≤ x) : 0 ≤ pyRound x := by
  simp only [pyRound]
  have hfl : 0 ≤ Int.floor x := Int.floor_nonneg.mpr hx
  split_ifs <;> omega

/-- `pyRound x` is a nearest integer to `x`: it is within 1/2 of `x`. -/
theorem pyRound_close (x : ℚ) : |(pyRound x : ℚ) - x| ≤ 1 / 2 := by
  simp only [pyRound]
  have h1 : ((Int.floor x : ℤ) : ℚ) ≤ x := Int.floor_le x
  have h2 : x < ((Int.floor x : ℤ) : ℚ) + 1 := Int.lt_floor_add_one x
  split_ifs with ha hb hc
  · rw [abs_le]
    constructor <;> linarith
  · rw [abs_le]
    push_cast
    constructor <;> linarith
  · rw [abs_le]
    constructor <;> linarith
  · rw [abs_le]
    push_cast
    constructor <;> linarith

/-- Floor division of coerced naturals is natural division. -/
theorem fdiv_natCast (a b : ℕ) : (a : ℤ).fdiv (b : ℤ) = ((a / b : ℕ) : ℤ) := by
  rw [Int.fdiv_eq_ediv _ (Int.natCast_nonneg b)]
  exact (Int.ofNat_ediv a b).symm

/-- The remainder computed by repeated subtraction in `srt_timestamp` is the
natural-number remainder. -/
theorem sub_div_mul_eq_mod (a b : ℕ) :
    (a : ℤ) - ((a / b : ℕ) : ℤ) * (b : ℤ) = ((a % b : ℕ) : ℤ) := by
  have h : (b : ℤ) * ((a / b : ℕ) : ℤ) + ((a % b : ℕ) : ℤ) = (a : ℤ) := by
    exact_mod_cast Nat.div_add_mod a b
  rw [mul_comm] at h
  linarith

/-- Formatting a coerced natural just zero-pads its digits. -/
theorem pyPad_natCast (w k : ℕ) : pyPad w ((k : ℕ) : ℤ) = zfill w (natChars k) := by
  unfold pyPad
  rw [if_neg (by omega : ¬ ((k : ℤ) < 0)), Int.toNat_natCast]

/-- When the rounded millisecond total is the natural number `N`,
`srt_timestamp` renders exactly the four fields of `N`'s sexagesimal
decomposition. -/
theorem srt_timestamp_coe (seconds : ℚ) (N : ℕ)
    (h : pyRound (seconds * 1000) = (N : ℤ)) :
    srt_timestamp seconds =
      zfill 2 (natChars (N / 3600000)) ++ [':'] ++
      zfill 2 (natChars (N % 3600000 / 60000)) ++ [':'] ++
      zfill 2 (natChars (N % 3600000 % 60000 / 1000)) ++ [','] ++
      zfill 3 (natChars (N % 3600000 % 60000 % 1000)) := by
  simp only [srt_timestamp, h]
  rw [show ((3600000 : ℤ)) = ((3600000 : ℕ) : ℤ) from rfl,
    show ((60000 : ℤ)) = ((60000 : ℕ) : ℤ) from rfl,
    show ((1000 : ℤ)) = ((1000 : ℕ) : ℤ) from rfl]
  rw [fdiv_natCast N 3600000, sub_div_mul_eq_mod N 3600000,
    fdiv_natCast (N % 3600000) 60000, sub_div_mul_eq_mod (N % 3600000) 60000,
    fdiv_natCast (N % 3600000 % 60000) 1000,
    sub_div_mul_eq_mod (N % 3600000 % 60000) 1000,
    pyPad_natCast, pyPad_natCast, pyPad_natCast, pyPad_natCast]

/-- C4: for nonnegative seconds, `srt_timestamp` renders zero-padded fields
`HH:MM:SS,mmm` with minutes and seconds below 60 and milliseconds below
1000, and the total millisecond value is `seconds * 1000` rounded to a
nearest integer (within 1/2 of it). -/
theorem C4_srt_timestamp_fields (seconds : ℚ) (h0 : 0 ≤ seconds) :
    ∃ H M S MS : ℕ,
      srt_timestamp seconds =
        zfill 2 (natChars H) ++ [':'] ++ zfill 2 (natChars M) ++ [':'] ++
          zfill 2 (natChars S) ++ [','] ++ zfill 3 (natChars MS) ∧
      M < 60 ∧ S < 60 ∧ MS < 1000 ∧
      |((3600000 * H + 60000 * M + 1000 * S + MS : ℕ) : ℚ) - seconds * 1000| ≤ 1 / 2 := by
  have hx : (0 : ℚ) ≤ seconds * 1000 := mul_nonneg h0 (by norm_num)
  have hnn := pyRound_nonneg hx
  have hcast : pyRound (seconds * 1000) = ((pyRound (seconds * 1000)).toNat : ℤ) :=
    (Int.toNat_of_nonneg hnn).symm
  set N := (pyRound (seconds * 1000)).toNat with hNdef
  refine ⟨N / 3600000, N % 3600000 / 60000, N % 3600000 % 60000 / 1000,
    N % 3600000 % 60000 % 1000, srt_timestamp_coe seconds N hcast,
    by omega, by omega, by omega, ?_⟩
  have hsum : 3600000 * (N / 3600000) + 60000 * (N % 3600000 / 60000) +
      1000 * (N % 3600000 % 60000 / 1000) + N % 3600000 % 60000 % 1000 = N := by
    omega
  rw [hsum]
  have hclose := pyRound_close (seconds * 1000)
  rw [hcast] at hclose
  push_cast at hclose
  exact hclose

/-- Witness for C4 at 3661.5 seconds. -/
theorem C4_srt_timestamp_fields_witness : (0 : ℚ) ≤ 7323 / 2 ∧
    ∃ H M S MS : ℕ,
      srt_timestamp (7323 / 2) =
        zfill 2 (natChars H) ++ [':'] ++ zfill 2 (natChars M) ++ [':'] ++
          zfill 2 (natChars S) ++ [','] ++ zfill 3 (natChars MS) ∧
      M < 60 ∧ S < 60 ∧ MS < 1000 ∧
      |((3600000 * H + 60000 * M + 1000 * S + MS : ℕ) : ℚ) - (7323 / 2) * 1000| ≤ 1 / 2 :=
  ⟨by norm_num, C4_srt_timestamp_fields (7323 / 2) (by norm_num)⟩

/-- `srtLines` yields one entry per scene. -/
theorem srtLines_length (t : ℚ) (idx : ℕ) (scenes : List Scene) :
    (srtLines t idx scenes).length = scenes.length := by
  induction scenes generalizing t idx with
  | nil => rfl
  | cons sc rest ih => simp [srtLines, ih]

/-- The `k`-th entry of `srtLines`: index `idx + k`, start at the elapsed
time `t` plus the first `k` durations, end one duration later, caption
stripped with newlines replaced. -/
theorem srtLines_getElem (scenes : List Scene) :
    ∀ (t : ℚ) (idx k : ℕ) (sc : Scene), scenes[k]? = some sc →
      (srtLines t idx scenes)[k]? =
        some ⟨idx + k,
          srt_timestamp (t + ((scenes.take k).map Scene.duration).sum),
          srt_timestamp (t + ((scenes.take (k + 1)).map Scene.duration).sum),
          (pyStrip sc.text).map nlToSpace⟩ := by
  induction scenes with
  | nil =>
    intro t idx k sc h
    simp at h
  | cons sc0 rest ih =>
    intro t idx k sc h
    cases k with
    | zero =>
      rw [List.getElem?_cons_zero] at h
      cases h
      simp [srtLines]
    | succ k' =>
      rw [List.getElem?_cons_succ] at h
      simp only [srtLines, List.getElem?_cons_succ]
      rw [ih (t + sc0.duration) (idx + 1) k' sc h]
      simp only [List.take_succ_cons, List.map_cons, List.sum_cons,
        Option.some.injEq, SrtEntry.mk.injEq]
      refine ⟨by omega, by rw [add_assoc], by rw [add_assoc], trivial⟩

/-- C3: `write_srt_for_scenes` produces one entry per scene with indices
1, 2, ..., n in order; the k-th start timestamp renders the sum of the first
k-1 durations (0 for the first), the k-th end timestamp renders that sum
plus the k-th duration, and consequently each entry's end time equals the
next entry's start time. -/
theorem C3_write_srt_accumulates (scenes : List Scene) (k : ℕ)
    (hk : k < scenes.length) :
    (write_srt_for_scenes scenes).length = scenes.length ∧
    ∃ e : SrtEntry, (write_srt_for_scenes scenes)[k]? = some e ∧
      e.idx = k + 1 ∧
      e.start = srt_timestamp (((scenes.take k).map Scene.duration).sum) ∧
      e.stop = srt_timestamp (((scenes.take (k + 1)).map Scene.duration).sum) ∧
      ∀ e2 : SrtEntry, (write_srt_for_scenes scenes)[k + 1]? = some e2 →
        e2.start = e.stop := by
  refine ⟨srtLines_length 0 1 scenes, ?_⟩
  have hsc : scenes[k]? = some scenes[k] := List.getElem?_eq_getElem hk
  refine ⟨_, srtLines_getElem scenes 0 1 k scenes[k] hsc,
    by show 1 + k = k + 1; omega, ?_, ?_, ?_⟩
  · show srt_timestamp (0 + _) = _
    rw [zero_add]
  · show srt_timestamp (0 + _) = _
    rw [zero_add]
  · intro e2 he2
    have hk2 : k + 1 < scenes.length := by
      by_contra hge
      have : (write_srt_for_scenes scenes)[k + 1]? = none := by
        apply List.getElem?_eq_none
        rw [show write_srt_for_scenes scenes = srtLines 0 1 scenes from rfl,
          srtLines_length]
        omega
      rw [this] at he2
      exact Option.noConfusion he2
    have hsc2 : scenes[k + 1]? = some scenes[k + 1] := List.getElem?_eq_getElem hk2
    have := srtLines_getElem scenes 0 1 (k + 1) scenes[k + 1] hsc2
    rw [show write_srt_for_scenes scenes = srtLines 0 1 scenes from rfl] at he2
    rw [this] at he2
    cases he2
    show srt_timestamp (0 + _) = srt_timestamp (0 + _)
    rfl

/-- Witness for C3 on a one-scene list. -/
theorem C3_write_srt_accumulates_witness :
    (write_srt_for_scenes [scA]).length = ([scA] : List Scene).length :=
  (C3_write_srt_accumulates [scA] 0 (by decide)).1

/-- C10: every caption written by `write_srt_for_scenes` is the scene text
stripped of leading/trailing whitespace with every internal newline replaced
by a space, hence single-line. -/
theorem C10_srt_caption_single_line (scenes : List Scene) (k : ℕ) (sc : Scene)
    (hsc : scenes[k]? = some sc) :
    ∃ e : SrtEntry, (write_srt_for_scenes scenes)[k]? = some e ∧
      e.text = (pyStrip sc.text).map nlToSpace ∧ '\n' ∉ e.text := by
  refine ⟨_, srtLines_getElem scenes 0 1 k sc hsc, rfl, ?_⟩
  intro hmem
  rw [List.mem_map] at hmem
  obtain ⟨c, _, hc⟩ := hmem
  simp only [nlToSpace] at hc
  by_cases h : c == '\n'
  · rw [if_pos h] at hc
    exact absurd hc (by decide)
  · rw [if_neg h] at hc
    rw [hc] at h
    simp at h

/-- Witness for C10 on a one-scene list. -/
theorem C10_srt_caption_single_line_witness :
    ∃ e : SrtEntry, (write_srt_for_scenes [scA])[0]? = some e ∧
      e.text = (pyStrip scA.text).map nlToSpace ∧ '\n' ∉ e.text :=
  C10_srt_caption_single_line [scA] 0 scA rfl

/-- The temp paths written for one iteration, prepended to the rest. -/
theorem renderPaths_cons (si : SceneInput) (rest : List SceneInput) :
    renderPaths (si :: rest) = si.ttsPath :: si.speedPath :: renderPaths rest := by
  simp [renderPaths]

/-- The render loop leaves every file it does not write to untouched. -/
theorem renderScenes_stable (speed : ℚ) :
    ∀ (sis : List SceneInput) (fs : AudioFS) (q : String),
      q ∉ renderPaths sis → (renderScenes speed fs sis).1 q = fs q := by
  intro sis
  induction sis with
  | nil =>
    intro fs q _
    rfl
  | cons si rest ih =>
    intro fs q h
    rw [renderPaths_cons, List.mem_cons, not_or, List.mem_cons, not_or] at h
    obtain ⟨h1, h2, h3⟩ := h
    show (renderScenes speed fs (si :: rest)).1 q = fs q
    simp only [renderScenes]
    rw [ih _ q h3]
    simp only [tts_to_mp3, change_speed]
    split_ifs
    · simp [fsWrite, h1]
    · simp [fsWrite, h1, h2]

/-- C2: when the temp-file paths are fresh (pairwise distinct), every scene
built by the render loop records as its duration exactly the measured
duration of the audio file attached to it in the final filesystem: the
re-measured export when `|speed - 1| >= 1e-3`, and the original synthesized
duration otherwise. -/
theorem C2_scene_duration (speed : ℚ) :
    ∀ (sis : List SceneInput) (fs : AudioFS),
      (renderPaths sis).Nodup →
      ∀ pr ∈ sis.zip (renderScenes speed fs sis).2,
        pr.2.duration = (renderScenes speed fs sis).1 pr.2.audio_path ∧
        (|speed - 1| < 1 / 1000 →
          pr.2.audio_path = pr.1.ttsPath ∧ pr.2.duration = pr.1.ttsDur) ∧
        (¬ |speed - 1| < 1 / 1000 →
          pr.2.audio_path = pr.1.speedPath ∧ pr.2.duration = pr.1.exportDur) := by
  intro sis
  induction sis with
  | nil =>
    intro fs _ pr hpr
    simp at hpr
  | cons si rest ih =>
    intro fs hnd pr hpr
    rw [renderPaths_cons] at hnd
    rw [List.nodup_cons] at hnd
    obtain ⟨htp, hnd⟩ := hnd
    rw [List.nodup_cons] at hnd
    obtain ⟨hsp, hnd⟩ := hnd
    rw [List.mem_cons, not_or] at htp
    obtain ⟨htpsp, htp⟩ := htp
    by_cases hs : |speed - 1| < 1 / 1000
    · simp only [renderScenes, tts_to_mp3, change_speed, if_pos hs] at hpr ⊢
      rw [List.zip_cons_cons, List.mem_cons] at hpr
      rcases hpr with heq | hmem
      · subst heq
        refine ⟨?_, fun _ => ⟨rfl, ?_⟩, fun hns => absurd hs hns⟩
        · show fsWrite fs si.ttsPath si.ttsDur si.ttsPath =
            (renderScenes speed (fsWrite fs si.ttsPath si.ttsDur) rest).1 si.ttsPath
          rw [renderScenes_stable speed rest _ _ htp]
        · show fsWrite fs si.ttsPath si.ttsDur si.ttsPath = si.ttsDur
          simp [fsWrite]
      · exact ih _ hnd pr hmem
    · simp only [renderScenes, tts_to_mp3, change_speed, if_neg hs] at hpr ⊢
      rw [List.zip_cons_cons, List.mem_cons] at hpr
      rcases hpr with heq | hmem
      · subst heq
        refine ⟨?_, fun hy => absurd hy hs, fun _ => ⟨rfl, ?_⟩⟩
        · show fsWrite (fsWrite fs si.ttsPath si.ttsDur) si.speedPath si.exportDur si.speedPath =
            (renderScenes speed _ rest).1 si.speedPath
          rw [renderScenes_stable speed rest _ _ hsp]
        · show fsWrite (fsWrite fs si.ttsPath si.ttsDur) si.speedPath si.exportDur si.speedPath = si.exportDur
          simp [fsWrite]
      · exact ih _ hnd pr hmem

/-- Witness for C2 on a single-scene render at speed 1. -/
theorem C2_scene_duration_witness :
    (renderPaths [wSI]).Nodup ∧
      (wScene.duration = (renderScenes 1 zeroFS [wSI]).1 wScene.audio_path ∧
        (|(1 : ℚ) - 1| < 1 / 1000 →
          wScene.audio_path = wSI.ttsPath ∧ wScene.duration = wSI.ttsDur) ∧
        (¬ |(1 : ℚ) - 1| < 1 / 1000 →
          wScene.audio_path = wSI.speedPath ∧ wScene.duration = wSI.exportDur)) := by
  have hnd : (renderPaths [wSI]).Nodup := by decide
  refine ⟨hnd, ?_⟩
  have hz : (renderScenes 1 zeroFS [wSI]).2 = [wScene] := by
    simp only [renderScenes, tts_to_mp3, change_speed]
    rw [if_pos (show |(1 : ℚ) - 1| < 1 / 1000 by norm_num)]
    simp [fsWrite, wScene, wSI]
  have hmem : (wSI, wScene) ∈ [wSI].zip (renderScenes 1 zeroFS [wSI]).2 := by
    rw [hz]
    exact List.mem_singleton.mpr rfl
  exact C2_scene_duration 1 [wSI] zeroFS hnd (wSI, wScene) hmem


/-- A suffix left by `dropWhile` that satisfies the predicate throughout is empty. -/
theorem dropWhile_all_imp_nil {α : Type} {p : α → Bool} {l : List α}
    (h : ∀ c ∈ l.dropWhile p, p c) : l.dropWhile p = [] := by
  induction l with
  | nil => rfl
  | cons a t ih =>
    rw [List.dropWhile_cons] at h ⊢
    by_cases ha : p a
    · rw [if_pos ha] at h ⊢
      exact ih h
    · rw [if_neg ha] at h
      exact absurd (h a (List.mem_cons_self a t)) ha

/-- A string strips to empty exactly when it is all whitespace. -/
theorem pyStrip_eq_nil_iff (l : List Char) :
    pyStrip l = [] ↔ ∀ c ∈ l, isPyWs c := by
  unfold pyStrip
  rw [List.reverse_eq_nil_iff, List.dropWhile_eq_nil_iff]
  constructor
  · intro h c hc
    have hsplit : c ∈ l.takeWhile isPyWs ++ l.dropWhile isPyWs := by
      rw [List.takeWhile_append_dropWhile]
      exact hc
    rcases List.mem_append.mp hsplit with h1 | h1
    · exact List.mem_takeWhile_imp h1
    · exact h c (List.mem_reverse.mpr h1)
  · intro h c hc
    rw [List.mem_reverse] at hc
    exact h c ((List.dropWhile_sublist isPyWs).subset hc)

/-- A string whose stripped form is all whitespace strips to empty. -/
theorem pyStrip_of_all_ws (l : List Char) (h : ∀ c ∈ pyStrip l, isPyWs c) :
    pyStrip l = [] := by
  unfold pyStrip at h ⊢
  rw [List.reverse_eq_nil_iff]
  apply dropWhile_all_imp_nil
  intro c hc
  exact h c (List.mem_reverse.mpr hc)





/-- Every character of every `split(\x22two newlines\x22)` part occurs in the input. -/
theorem splitNN_subset :
    ∀ (l : List Char), ∀ p ∈ splitNN l, ∀ c ∈ p, c ∈ l := by
  intro l
  induction l using splitNN.induct with
  | case1 =>
    intro p hp c hc
    rw [splitNN.eq_1, List.mem_singleton] at hp
    subst hp
    simp at hc
  | case2 rest ih =>
    intro p hp c hc
    rw [splitNN.eq_2, List.mem_cons] at hp
    rcases hp with h | h
    · subst h
      simp at hc
    · have := ih p h c hc
      simp [this]
  | case3 c0 rest hne heq ih =>
    intro p hp c hc
    rw [splitNN.eq_3 c0 rest hne, heq, List.mem_singleton] at hp
    subst hp
    rw [List.mem_singleton] at hc
    subst hc
    exact List.mem_cons_self _ _
  | case4 c0 rest hne h t heq ih =>
    intro p hp c hc
    rw [splitNN.eq_3 c0 rest hne, heq, List.mem_cons] at hp
    rcases hp with h1 | h1
    · subst h1
      rw [List.mem_cons] at hc
      rcases hc with hc | hc
      · subst hc
        exact List.mem_cons_self _ _
      · refine List.mem_cons_of_mem _ (ih h ?_ c hc)
        rw [heq]
        exact List.mem_cons_self h t
    · refine List.mem_cons_of_mem _ (ih p ?_ c hc)
      rw [heq]
      exact List.mem_cons_of_mem h h1

/-- Every character of every `split(\x22.\x22)` part occurs in the input. -/
theorem splitDot_subset :
    ∀ (l : List Char), ∀ p ∈ splitDot l, ∀ c ∈ p, c ∈ l := by
  intro l
  induction l using splitDot.induct with
  | case1 =>
    intro p hp c hc
    rw [splitDot.eq_1, List.mem_singleton] at hp
    subst hp
    simp at hc
  | case2 rest ih =>
    intro p hp c hc
    rw [splitDot.eq_2, List.mem_cons] at hp
    rcases hp with h | h
    · subst h
      simp at hc
    · have := ih p h c hc
      simp [this]
  | case3 c0 rest hne heq ih =>
    intro p hp c hc
    rw [splitDot.eq_3 c0 rest hne, heq, List.mem_singleton] at hp
    subst hp
    rw [List.mem_singleton] at hc
    subst hc
    exact List.mem_cons_self _ _
  | case4 c0 rest hne h t heq ih =>
    intro p hp c hc
    rw [splitDot.eq_3 c0 rest hne, heq, List.mem_cons] at hp
    rcases hp with h1 | h1
    · subst h1
      rw [List.mem_cons] at hc
      rcases hc with hc | hc
      · subst hc
        exact List.mem_cons_self _ _
      · refine List.mem_cons_of_mem _ (ih h ?_ c hc)
        rw [heq]
        exact List.mem_cons_self h t
    · refine List.mem_cons_of_mem _ (ih p ?_ c hc)
      rw [heq]
      exact List.mem_cons_of_mem h h1

/-- Every block produced by the sentence-grouping loop ends in a dot. -/
theorem sentLoop_mem :
    ∀ (parts : List (List Char)) (buf : List (List Char)) (r : List Char),
      r ∈ sentLoop buf parts → ∃ pre, r = pre ++ ['.'] := by
  intro parts
  induction parts with
  | nil =>
    intro buf r hr
    simp only [sentLoop] at hr
    split_ifs at hr
    · simp at hr
    · rw [List.mem_singleton] at hr
      exact ⟨_, hr⟩
  | cons part rest ih =>
    intro buf r hr
    simp only [sentLoop] at hr
    split_ifs at hr
    · exact ih buf r hr
    · rw [List.mem_cons] at hr
      rcases hr with h | h
      · exact ⟨_, h⟩
      · exact ih [] r h
    · exact ih (buf ++ [pyStrip part]) r hr

/-- The sentence-grouping loop skips parts that strip to empty; with an empty buffer and only such parts it returns nothing. -/
theorem sentLoop_nil_of :
    ∀ (parts : List (List Char)), (∀ p ∈ parts, pyStrip p = []) →
      sentLoop [] parts = [] := by
  intro parts
  induction parts with
  | nil =>
    intro _
    rfl
  | cons part rest ih =>
    intro h
    have hp : pyStrip part = [] := h part (List.mem_cons_self part rest)
    rw [show sentLoop [] (part :: rest) = sentLoop [] rest from by simp [sentLoop, hp]]
    exact ih (fun p hp2 => h p (List.mem_cons_of_mem part hp2))

/-- Whitespace characters are unaffected by the question/exclamation-mark replacement. -/
theorem punctToDot_ws (c : Char) (h : isPyWs c) : punctToDot c = c := by
  simp only [isPyWs, Bool.or_eq_true, beq_iff_eq] at h
  rcases h with ((((h | h) | h) | h) | h) | h <;> subst h <;> rfl

/-- C9: every block `split_script` returns is non-empty after stripping, and on whitespace-only input `split_script` returns the empty list. -/
theorem C9_split_script_blocks (text : List Char) :
    (∀ b ∈ split_script text, pyStrip b ≠ []) ∧
      ((∀ c ∈ text, isPyWs c) → split_script text = []) := by
  constructor
  · intro b hb
    simp only [split_script] at hb
    by_cases hbl : (((splitNN text).map pyStrip).filter (fun b => !b.isEmpty)).isEmpty
    · rw [if_pos hbl] at hb
      obtain ⟨pre, hpre⟩ := sentLoop_mem _ _ b hb
      intro hnil
      rw [pyStrip_eq_nil_iff] at hnil
      have hdot : isPyWs '.' := hnil '.' (by rw [hpre]; simp)
      exact absurd hdot (by decide)
    · rw [if_neg hbl] at hb
      rw [List.mem_filter] at hb
      obtain ⟨hmem, hne⟩ := hb
      rw [List.mem_map] at hmem
      obtain ⟨a, _, ha⟩ := hmem
      intro hnil
      rw [pyStrip_eq_nil_iff] at hnil
      have hb0 : pyStrip a = [] := pyStrip_of_all_ws a (by rw [ha]; exact hnil)
      rw [hb0] at ha
      rw [← ha] at hne
      simp at hne
  · intro hws
    have hblocks : ((splitNN text).map pyStrip).filter (fun b => !b.isEmpty) = [] := by
      rw [List.filter_eq_nil_iff]
      intro a ha
      rw [List.mem_map] at ha
      obtain ⟨q, hq, hqa⟩ := ha
      have hq0 : pyStrip q = [] := by
        rw [pyStrip_eq_nil_iff]
        intro c hc
        exact hws c (splitNN_subset text q hq c hc)
      rw [← hqa, hq0]
      simp
    simp only [split_script]
    rw [hblocks, if_pos (by rfl : ([] : List (List Char)).isEmpty = true)]
    apply sentLoop_nil_of
    intro p hp
    rw [pyStrip_eq_nil_iff]
    intro c hc
    have hcmem := splitDot_subset _ p hp c hc
    rw [List.mem_map] at hcmem
    obtain ⟨c0, hc0, hcc⟩ := hcmem
    have hw0 := hws c0 hc0
    rw [← hcc, punctToDot_ws c0 hw0]
    exact hw0

/-- Witness for C9: a one-letter script gives a non-blank block, and a blank script gives no blocks. -/
theorem C9_split_script_blocks_witness : pyStrip ['a'] ≠ [] ∧ split_script [' '] = [] :=
  ⟨(C9_split_script_blocks ['a']).1 ['a'] (by decide), (C9_split_script_blocks [' ']).2 (by decide)⟩

/-- C1 (code bug evidence): `c1Text` is non-blank and contains no blank-line
separator, yet `split_script` returns it whole as a single block, because the
`if blocks:` guard makes the sentence-grouping fallback unreachable for any
script with content; the fallback itself, run on the same input as the code
comment and UI tip describe, would produce two word-count-bounded blocks. -/
theorem C1_split_script_single_block :
    split_script (String.data c1Text) = [String.data c1Text] ∧
      (sentLoop [] (splitDot ((String.data c1Text).map punctToDot))).length = 2 := by
  exact ⟨by decide, by decide⟩

end App
